import Mathlib

/-!
Shallow embedding of circ::FastCircularQueue<T, SizeType = uint32_t>
(src/circular_buffer.h).

Modelling conventions:
* SizeType is uint32_t: every index computation the source performs in
  SizeType is done in Nat followed by a reduction modulo U32 = 2 ^ 32
  (the helper u32).
* Element values of the trivially-copyable element type T are natural
  numbers below 256 ^ s, where the field s of a Queue is sizeof(T).
  The heap is byte-addressed: the data field maps a byte address to the
  byte stored there.  An element at slot i occupies the s bytes at
  addresses i * s, ..., i * s + s - 1 in little-endian order, which is
  exactly the layout std::memcpy sees, so the byte counts the source
  passes to memcpy are translated literally.
* malloc never fails in the model (AllocationFailure is out of scope);
  freshly allocated or reallocated memory is modelled as zero-filled
  where the source leaves it uninitialized.  realloc preserves the
  previous contents, which the unchanged data function models; the
  allocation length itself is not tracked (out-of-range accesses of the
  source read or write the flat byte memory of the model).
* A method that throws is modelled as returning Except.error together
  with the state of the object at the throw point, so the pair
  (state, outcome) captures both the result and the partial effect.
-/

namespace CircQ

/-- Number of values of the 32-bit unsigned SizeType. -/
def U32 : Nat := 2 ^ 32

/-- Reduction modulo 2 ^ 32: the wraparound of uint32_t arithmetic. -/
def u32 (x : Nat) : Nat := x % U32

/-- The roundup bit-smear helper instantiated at T = uint32_t:
decrement, OR in the right shifts by 1, 2, 4, 8, 16, then increment. -/
def roundup32 (x0 : Nat) : Nat :=
  let x := u32 (x0 + (U32 - 1))
  let x := x ||| (x >>> 1)
  let x := x ||| (x >>> 2)
  let x := x ||| (x >>> 4)
  let x := x ||| (x >>> 8)
  let x := x ||| (x >>> 16)
  u32 (x + 1)

/-- The two modelled error exits: popping an empty queue and
resizing below the current mask.  AllocationFailure is not modelled. -/
inductive Err where
  | EmptyQueue : Err
  | InvalidResize : Err
  deriving DecidableEq

instance {e a : Type} [DecidableEq e] [DecidableEq a] : DecidableEq (Except e a) := fun x y =>
  match x, y with
  | Except.ok u, Except.ok v =>
      if h : u = v then Decidable.isTrue (by rw [h]) else
        Decidable.isFalse (by intro hc; cases hc; exact h rfl)
  | Except.error u, Except.error v =>
      if h : u = v then Decidable.isTrue (by rw [h]) else
        Decidable.isFalse (by intro hc; cases hc; exact h rfl)
  | Except.ok _, Except.error _ => Decidable.isFalse (by intro hc; cases hc)
  | Except.error _, Except.ok _ => Decidable.isFalse (by intro hc; cases hc)

/-- The four data members of FastCircularQueue, plus s = sizeof(T).
data is the byte memory backing the allocation. -/
structure Queue where
  s : Nat
  mask : Nat
  start : Nat
  stop : Nat
  data : Nat → Nat

/-- std::memcpy(d + dOff, src + sOff, n) on byte memories: the n bytes
at dOff, ..., dOff + n - 1 of the destination become the bytes at
sOff, ..., sOff + n - 1 of the source. -/
def memcpyB (d : Nat → Nat) (dOff : Nat) (src : Nat → Nat) (sOff n : Nat) : Nat → Nat :=
  fun j => if dOff ≤ j ∧ j < dOff + n then src (sOff + (j - dOff)) else d j

/-- Placement-construction of element value v (little-endian, s bytes)
at byte offset off, as done by new(data_ + ind) T(...). -/
def writeElem (d : Nat → Nat) (s off v : Nat) : Nat → Nat :=
  fun j => if off ≤ j ∧ j < off + s then v / 256 ^ (j - off) % 256 else d j

/-- Reading the element stored at slot i: assemble its s little-endian
bytes.  Moving an element out (std::move on a trivially-copyable T)
reads the bytes and leaves them in place. -/
def readElem (q : Queue) (i : Nat) : Nat :=
  ((List.range q.s).map (fun k => q.data (i * q.s + k))).foldr
    (fun b acc => b + 256 * acc) 0

/-- Constructor FastCircularQueue(size): mask_ = roundup(size + 1) - 1,
start_ = stop_ = 0, data_ = malloc((mask_ + 1) * sizeof(T)). -/
def mkQueue (s size : Nat) : Queue :=
  { s := s
    mask := u32 (roundup32 (u32 (size + 1)) + (U32 - 1))
    start := 0
    stop := 0
    data := fun _ => 0 }

/-- size(): (stop_ - start_) & mask_ in SizeType arithmetic. -/
def size (q : Queue) : Nat :=
  u32 (q.stop + (U32 - q.start)) &&& q.mask

/-- resize(new_size), translated line by line from the source.
The guard new_size < mask_ throws InvalidResize before any mutation.
Afterwards realloc grows the block (contents preserved; the rounded
new_size only fixes the allocation length, which the model does not
track), then the two relinearization branches run:
* start_ == stop_ and start_ != 0: stop_ is set to mask_ + 1, a scratch
  buffer of stop_ elements is filled from data_ + start_ and from
  data_, copied back to offset 0, and start_ is reset to 0 - stop_
  keeps the value mask_ + 1.
* stop_ < start_: the spans [start_, mask_] and [0, stop_) are
  concatenated into a scratch buffer; the copy back to data_ passes
  sz = (stop_ - start_) & mask_ bytes - the source omits the factor
  sizeof(T) here, and the model reproduces that byte count literally.
Finally mask_ = ((mask_ + 1) << 1) - 1 in SizeType arithmetic. -/
def resizeS (q : Queue) (newSize : Nat) : Queue × Except Err Unit :=
  if newSize < q.mask then (q, Except.error Err.InvalidResize) else
  let mask2 := u32 (u32 (u32 (q.mask + 1) <<< 1) + (U32 - 1))
  if q.start = q.stop then
    if q.start ≠ 0 then
      let stp := u32 (q.mask + 1)
      let n1 := u32 (stp + (U32 - q.start))
      let tmp : Nat → Nat := fun _ => 0
      let tmp := memcpyB tmp 0 q.data (q.start * q.s) (n1 * q.s)
      let tmp := memcpyB tmp (n1 * q.s) q.data 0 (stp * q.s)
      let d := memcpyB q.data 0 tmp 0 (stp * q.s)
      ({ q with start := 0, stop := stp, data := d, mask := mask2 }, Except.ok ())
    else
      ({ q with mask := mask2 }, Except.ok ())
  else if q.stop < q.start then
    let n1 := u32 (u32 (q.mask + 1) + (U32 - q.start))
    let tmp : Nat → Nat := fun _ => 0
    let tmp := memcpyB tmp 0 q.data (q.start * q.s) (n1 * q.s)
    let tmp := memcpyB tmp (n1 * q.s) q.data 0 (q.stop * q.s)
    let sz := u32 (q.stop + (U32 - q.start)) &&& q.mask
    let d := memcpyB q.data 0 tmp 0 sz
    ({ q with start := 0, stop := sz, data := d, mask := mask2 }, Except.ok ())
  else
    ({ q with mask := mask2 }, Except.ok ())

/-- push_back(v): when (stop_ + 1) & mask_ == start_ first
resize((mask_ + 1) << 1), then construct at slot stop_ and advance
stop_ = (stop_ + 1) & mask_.  A failure of the inner resize
propagates with the state resize left behind. -/
def pushBackS (q : Queue) (v : Nat) : Queue × Except Err Unit :=
  if u32 (q.stop + 1) &&& q.mask = q.start then
    match resizeS q (u32 (u32 (q.mask + 1) <<< 1)) with
    | (q1, Except.error e) => (q1, Except.error e)
    | (q1, Except.ok _) =>
        ({ q1 with stop := u32 (q1.stop + 1) &&& q1.mask,
                   data := writeElem q1.data q1.s (q1.stop * q1.s) v }, Except.ok ())
  else
    ({ q with stop := u32 (q.stop + 1) &&& q.mask,
              data := writeElem q.data q.s (q.stop * q.s) v }, Except.ok ())

/-- pop() alias pop_front(): throw EmptyQueue when stop_ == start_,
else move out slot start_, then start_ = (start_ + 1) & mask_. -/
def popS (q : Queue) : Queue × Except Err Nat :=
  if q.stop = q.start then (q, Except.error Err.EmptyQueue) else
  let ret := readElem q q.start
  ({ q with start := u32 (q.start + 1) &&& q.mask }, Except.ok ret)

/-- pop_back(): throw EmptyQueue when stop_ == start_, else move out
slot --stop_ (the decrement wraps in SizeType and is NOT masked), then
the source masks start_, not stop_: start_ &= mask_. -/
def popBackS (q : Queue) : Queue × Except Err Nat :=
  if q.stop = q.start then (q, Except.error Err.EmptyQueue) else
  let stp := u32 (q.stop + (U32 - 1))
  let ret := readElem { q with stop := stp } stp
  ({ q with stop := stp, start := q.start &&& q.mask }, Except.ok ret)

/-- push_pop(v): pop() then push(v), returning the popped value. -/
def pushPopS (q : Queue) (v : Nat) : Queue × Except Err Nat :=
  match popS q with
  | (q1, Except.error e) => (q1, Except.error e)
  | (q1, Except.ok r) =>
      match pushBackS q1 v with
      | (q2, Except.error e) => (q2, Except.error e)
      | (q2, Except.ok _) => (q2, Except.ok r)

/-- front(): data_[start_] (no bounds or emptiness check). -/
def frontS (q : Queue) : Nat := readElem q q.start

/-- The index back() reads: stop_ - 1 in SizeType arithmetic,
exactly as the source writes data_[stop_ - 1] (no masking). -/
def backIndex (q : Queue) : Nat := u32 (q.stop + (U32 - 1))

/-- back(): data_[stop_ - 1] (no bounds or emptiness check). -/
def backS (q : Queue) : Nat := readElem q (backIndex q)

/-- The fuel-bounded index traversal shared by for_each, to_vector and
clear: visit i, then i = (i + 1) & mask_ (the increment wraps in
SizeType first), until i == stop_.  The fuel only bounds the number of
iterations; the termination theorem for the claims shows the loop
exits through the i == stop_ guard on every valid state. -/
def travIdx (mask stp : Nat) : Nat → Nat → List Nat
  | 0, _ => []
  | f + 1, i => if i = stp then [] else i :: travIdx mask stp f (u32 (i + 1) &&& mask)

/-- to_vector(): move each live element, in traversal order, into a
fresh vector.  The fuel mask_ + 1 strictly exceeds every possible
size, so it never truncates a terminating traversal. -/
def toVectorS (q : Queue) : List Nat :=
  (travIdx q.mask q.stop (q.mask + 1) q.start).map (readElem q)

/-- for_each(func): the loop body func(data_[i++]), i &= mask_ visits
the same slots in the same order as to_vector; the model records the
sequence of element values passed to the functor. -/
def forEachVisits (q : Queue) : List Nat :=
  (travIdx q.mask q.stop (q.mask + 1) q.start).map (readElem q)

/-- clear(): destruct every live element (a no-op on the bytes of a
trivially-destructible T), then start_ = stop_ = 0. -/
def clearS (q : Queue) : Queue := { q with start := 0, stop := 0 }

/-- The body of the copy-constructor loop
for(i = start_; i != stop_; data_[i] = other.data_[i], ++i).
Each iteration copy-assigns one element (s bytes at offset i * s) and
increments i in SizeType arithmetic, without masking.  The loop stops
at the first i equal to stop_, hence runs exactly
(stop_ - start_) mod 2 ^ 32 times; that exact count is the fuel. -/
def copyLoop (src : Nat → Nat) (s : Nat) : Nat → Nat → (Nat → Nat) → (Nat → Nat)
  | 0, _, d => d
  | f + 1, i, d => copyLoop src s f (u32 (i + 1)) (memcpyB d (i * s) src (i * s) s)

/-- Copy constructor: start_, stop_ and mask_ are copied, a fresh
block of mask_ + 1 slots is allocated (uninitialized, modelled
zero-filled), and the element loop copies the live range at its
original indices. -/
def copyS (q : Queue) : Queue :=
  { s := q.s
    mask := q.mask
    start := q.start
    stop := q.stop
    data := copyLoop q.data q.s (u32 (q.stop + (U32 - q.start))) q.start (fun _ => 0) }

/-- Convenience: the state after a push (dropping the Except). -/
def pushV (q : Queue) (v : Nat) : Queue := (pushBackS q v).1

/-- Convenience: the state after a pop (dropping the value). -/
def popQ (q : Queue) : Queue := (popS q).1

/-- A push-then-drain scenario for element size s, executed from a
freshly constructed queue of requested size 3 (mask 3): two warm-up
pushes and pops leave the queue empty at offset start = stop = 2; the
four pushes 10, 11, 12, 13 then wrap around the end of the allocation
and the fourth triggers the automatic resize from the wrapped layout;
finally four pops drain the queue.  The list collects the four popped
results in order. -/
def c1run (s : Nat) : List (Except Err Nat) :=
  let q := mkQueue s 3
  let q := pushV (pushV q 1) 2
  let q := popQ (popQ q)
  let q := pushV (pushV (pushV (pushV q 10) 11) 12) 13
  let p1 := popS q
  let p2 := popS p1.1
  let p3 := popS p2.1
  let p4 := popS p3.1
  [p1.2, p2.2, p3.2, p4.2]

/-- A reachable wrapped state with stop_ = 0: from a fresh queue of
mask 3 (element size 1), push 5, pop it, then push 6, 7, 8.  The live
range is slots 1, 2, 3 with start_ = 1 and stop_ = 0. -/
def wrapQ : Queue :=
  let q := mkQueue 1 3
  let q := popQ (pushV q 5)
  pushV (pushV (pushV q 6) 7) 8

/-- A reachable empty-but-offset state: from a fresh queue of mask 3,
push two values and pop both, leaving start_ = stop_ = 2. -/
def c3q : Queue :=
  let q := mkQueue 1 3
  popQ (popQ (pushV (pushV q 1) 2))

/-- A reachable state holding the two live elements 7 and 9 at slots
1 and 2: push a dummy, pop it, then push 7 and 9. -/
def c5q : Queue :=
  let q := mkQueue 1 3
  let q := popQ (pushV q 1)
  pushV (pushV q 7) 9

/-- C1: the claim states that for every element type, pushes followed
by equally many pops return the pushed values in order, even when the
occupied range wraps before an automatic resize.  The code violates
this: in the wrapped relinearization branch of resize the copy back
to data_ passes sz bytes instead of sz * sizeof(T) bytes, so for
sizeof(T) = 4 the drain of the scenario c1run returns 10, 2, 10, 13
instead of the pushed 10, 11, 12, 13 (for sizeof(T) = 1, where the
missing factor is 1, the same scenario drains correctly). -/
theorem c1_wrapped_resize_drops_data :
    c1run 4 = [Except.ok 10, Except.ok 2, Except.ok 10, Except.ok 13] ∧
    c1run 4 ≠ [Except.ok 10, Except.ok 11, Except.ok 12, Except.ok 13] ∧
    c1run 1 = [Except.ok 10, Except.ok 11, Except.ok 12, Except.ok 13] := by
  decide

/-- C2: the claim states that start_ and stop_ stay in [0, mask_]
after every public operation, and in particular that pop_back sets
stop_ = (stop_ - 1) & mask_.  The code violates this: pop_back
decrements stop_ without masking it (it masks start_ instead), so on
the reachable wrapped state wrapQ (start_ = 1, stop_ = 0, mask_ = 3,
three live elements) pop_back sets stop_ to 2 ^ 32 - 1 instead of the
claimed (0 - 1) & 3 = 3. -/
theorem c2_popBack_leaves_stop_unmasked :
    wrapQ.start ≤ wrapQ.mask ∧ wrapQ.stop ≤ wrapQ.mask ∧ wrapQ.stop ≠ wrapQ.start ∧
    u32 (wrapQ.stop + (U32 - 1)) &&& wrapQ.mask = 3 ∧
    (popBackS wrapQ).1.stop = U32 - 1 ∧
    ¬ (popBackS wrapQ).1.stop ≤ (popBackS wrapQ).1.mask := by
  decide

/-- C3: the claim states that resizing an empty-but-offset queue
(start_ = stop_ ≠ 0) leaves it empty with size() = 0.  The code
violates this: that branch of resize sets stop_ = mask_ + 1 and
start_ = 0, so on the reachable state c3q (start_ = stop_ = 2,
mask_ = 3) an explicit resize to 8 succeeds and leaves size() = 4. -/
theorem c3_resize_fabricates_elements :
    c3q.start = c3q.stop ∧ c3q.start ≠ 0 ∧ size c3q = 0 ∧
    (resizeS c3q 8).2 = Except.ok () ∧
    (resizeS c3q 8).1.start = 0 ∧ (resizeS c3q 8).1.stop = 4 ∧
    size (resizeS c3q 8).1 = 4 := by
  decide

/-- C4: the claim states that front() reads the element at start_ and
back() the element at (stop_ - 1) & mask_, index mask_ when stop_ = 0.
The code violates the back() half: it reads data_[stop_ - 1] without
masking, so on the reachable wrapped state wrapQ (stop_ = 0, mask_ =
3, live elements 6, 7, 8 at slots 1, 2, 3) back() reads the
out-of-range index 2 ^ 32 - 1 instead of index 3, which holds the
live value 8; front() does read start_, returning 6 as claimed. -/
theorem c4_back_reads_unmasked_index :
    size wrapQ = 3 ∧ wrapQ.stop = 0 ∧ wrapQ.mask = 3 ∧
    u32 (wrapQ.stop + (U32 - 1)) &&& wrapQ.mask = 3 ∧
    readElem wrapQ 3 = 8 ∧
    backIndex wrapQ = U32 - 1 ∧ backIndex wrapQ ≠ 3 ∧
    frontS wrapQ = readElem wrapQ wrapQ.start ∧ frontS wrapQ = 6 := by
  decide

/-- C5 counterexample: the claim states that the copy constructor
reconstructs the live elements starting at index 0.  On the reachable
state c5q, holding 7 and 9 at slots 1 and 2, the copy keeps start_ =
1 and places the live elements at their original slots 1 and 2; its
slot 0 is never written (it reads as the fresh-allocation fill 0, not
as the first live element 7). -/
theorem c5_copy_keeps_original_offsets :
    c5q.start = 1 ∧ toVectorS c5q = [7, 9] ∧
    (copyS c5q).start = 1 ∧ (copyS c5q).start ≠ 0 ∧
    readElem (copyS c5q) 0 = 0 ∧ readElem (copyS c5q) 0 ≠ 7 ∧
    readElem (copyS c5q) 1 = 7 ∧ readElem (copyS c5q) 2 = 9 := by
  decide


/-- Reduction modulo 2 ^ 32 is the identity below 2 ^ 32. -/
theorem u32_small {x : Nat} (h : x < U32) : u32 x = x := Nat.mod_eq_of_lt h

/-- C6: whenever resize returns successfully, the new mask_ is
((mask_ + 1) << 1) - 1 in SizeType arithmetic - the realized capacity
is always double the prior power-of-two slot count, regardless of the
requested target; below the uint32_t overflow boundary this is
exactly 2 * (mask + 1) - 1. -/
theorem c6_resize_always_doubles (q : Queue) (t : Nat)
    (h : (resizeS q t).2 = Except.ok ()) :
    (resizeS q t).1.mask = u32 (u32 (u32 (q.mask + 1) <<< 1) + (U32 - 1)) ∧
    (q.mask + 1 ≤ 2 ^ 31 → (resizeS q t).1.mask = 2 * (q.mask + 1) - 1) := by
  have hmain : (resizeS q t).1.mask = u32 (u32 (u32 (q.mask + 1) <<< 1) + (U32 - 1)) := by
    by_cases h1 : t < q.mask
    · simp only [resizeS, if_pos h1] at h
      exact absurd h (by simp)
    · simp only [resizeS, if_neg h1]
      split
      · split
        · rfl
        · rfl
      · split
        · rfl
        · rfl
  refine ⟨hmain, fun hsmall => ?_⟩
  rw [hmain]
  simp only [u32, U32, Nat.shiftLeft_eq, pow_one]
  have h31 : (2:Nat) ^ 31 < 2 ^ 32 := by norm_num
  have h32 : (2:Nat) ^ 32 = 2 ^ 31 * 2 := by norm_num
  omega


/-- C7: resize fails with InvalidResize precisely when the requested
target is smaller than the current mask_, and in that case it returns
with the queue completely unmodified (the guard precedes every
mutation).  Allocation failure is outside the model. -/
theorem c7_invalid_resize_iff (q : Queue) (t : Nat) :
    ((resizeS q t).2 = Except.error Err.InvalidResize ↔ t < q.mask) ∧
    (t < q.mask → resizeS q t = (q, Except.error Err.InvalidResize)) := by
  have hpos : t < q.mask → resizeS q t = (q, Except.error Err.InvalidResize) := by
    intro h
    simp only [resizeS, if_pos h]
  refine ⟨⟨?_, fun h => by rw [hpos h]⟩, hpos⟩
  intro h
  by_contra hc
  simp only [resizeS, if_neg hc] at h
  revert h
  split
  · split
    · simp
    · simp
  · split
    · simp
    · simp

/-- C8: pop and pop_back on an empty queue (start_ == stop_) fail
with EmptyQueue and have no effect: the returned state is the input
state unchanged, and size() of that state is 0. -/
theorem c8_pop_empty_no_effect (q : Queue) (h : q.start = q.stop) (hlt : q.start < U32) :
    popS q = (q, Except.error Err.EmptyQueue) ∧
    popBackS q = (q, Except.error Err.EmptyQueue) ∧
    size q = 0 := by
  refine ⟨?_, ?_, ?_⟩
  · simp only [popS, if_pos h.symm]
  · simp only [popBackS, if_pos h.symm]
  · unfold size
    rw [← h]
    have h1 : q.start + (U32 - q.start) = U32 := by omega
    rw [h1]
    have h2 : u32 U32 = 0 := by simp [u32]
    rw [h2, Nat.zero_and]

/-- C9: on a non-empty queue whose start_ lies in [0, mask_] with a
power-of-two slot count, pop_back leaves start_, mask_, the byte
contents and the element size unchanged: the start_ &= mask_ it
executes is the identity there, and only stop_ is rewritten. -/
theorem c9_popBack_frame (q : Queue) (k : Nat) (hm : q.mask + 1 = 2 ^ k)
    (hst : q.start ≤ q.mask) (hne : q.stop ≠ q.start) :
    (popBackS q).1.start = q.start ∧ (popBackS q).1.mask = q.mask ∧
    (popBackS q).1.data = q.data ∧ (popBackS q).1.s = q.s := by
  simp only [popBackS, if_neg hne]
  refine ⟨?_, trivial, trivial, trivial⟩
  show q.start &&& q.mask = q.start
  have hm2 : q.mask = 2 ^ k - 1 := by omega
  rw [hm2, Nat.and_pow_two_sub_one_eq_mod]
  exact Nat.mod_eq_of_lt (by omega)


/-- One loop step of the masked traversal: incrementing in SizeType
and masking equals incrementing modulo the power-of-two capacity. -/
theorem step_mod (k i m : Nat) (hk : k ≤ 32) (hm : m + 1 = 2 ^ k) :
    u32 (i + 1) &&& m = (i + 1) % 2 ^ k := by
  have hdvd : (2:Nat) ^ k ∣ 2 ^ 32 := pow_dvd_pow 2 hk
  have hm2 : m = 2 ^ k - 1 := by omega
  rw [hm2, Nat.and_pow_two_sub_one_eq_mod, u32, U32]
  exact Nat.mod_mod_of_dvd _ hdvd

/-- The modular distance to the loop bound sp decreases by one at
each masked increment while it is positive. -/
theorem dist_step (P sp i d : Nat) (hsp : sp < P) (hi : i < P)
    (hd : (sp + P - i) % P = d + 1) : (sp + P - (i + 1) % P) % P = d := by
  rcases Nat.lt_or_ge (i + 1) P with h1 | h1
  · rw [Nat.mod_eq_of_lt h1]
    rcases Nat.lt_or_ge (sp + P - i) P with h2 | h2
    · rw [Nat.mod_eq_of_lt h2] at hd
      rw [Nat.mod_eq_of_lt (by omega)]
      omega
    · have h3 : sp + P - i < 2 * P := by omega
      have h4 : (sp + P - i) % P = sp + P - i - P := by
        rw [Nat.mod_eq_sub_mod h2, Nat.mod_eq_of_lt (by omega)]
      rw [h4] at hd
      have h5 : P ≤ sp + P - (i + 1) := by omega
      rw [Nat.mod_eq_sub_mod h5, Nat.mod_eq_of_lt (by omega)]
      omega
  · have h2 : i + 1 = P := by omega
    rw [h2, Nat.mod_self, Nat.sub_zero, Nat.add_mod_right, Nat.mod_eq_of_lt hsp]
    have h3 : sp + P - i = sp + 1 := by omega
    rw [h3] at hd
    rcases Nat.lt_or_ge (sp + 1) P with h4 | h4
    · rw [Nat.mod_eq_of_lt h4] at hd
      omega
    · have h5 : sp + 1 = P := by omega
      rw [h5, Nat.mod_self] at hd
      omega

/-- The masked traversal from i with fuel at least the modular
distance n from i to sp visits exactly the n indices
i, i + 1, ... reduced modulo the power-of-two capacity. -/
theorem travIdx_range (k m sp : Nat) (hk : k ≤ 32) (hm : m + 1 = 2 ^ k) (hsp : sp ≤ m) :
    ∀ n f i, i ≤ m → (sp + 2 ^ k - i) % 2 ^ k = n → n ≤ f →
      travIdx m sp f i = (List.range n).map (fun j => (i + j) % 2 ^ k) := by
  intro n
  induction n with
  | zero =>
    intro f i hi hd _
    have hP : 0 < 2 ^ k := Nat.pos_pow_of_pos k (by omega)
    have hisp : i = sp := by
      obtain ⟨c, hc⟩ := Nat.dvd_of_mod_eq_zero hd
      have h1 : 1 ≤ sp + 2 ^ k - i := by omega
      have h2 : sp + 2 ^ k - i < 2 * 2 ^ k := by omega
      have hc1 : c = 1 := by
        rcases c with _ | c
        · omega
        · rcases c with _ | c
          · rfl
          · exfalso
            have : 2 ^ k * (c + 1 + 1) ≥ 2 ^ k * 2 := by
              apply Nat.mul_le_mul_left
              omega
            omega
      rw [hc1, Nat.mul_one] at hc
      omega
    subst hisp
    cases f with
    | zero => rfl
    | succ f => simp [travIdx]
  | succ n ih =>
    intro f i hi hd hf
    obtain ⟨f2, rfl⟩ : ∃ f2, f = f2 + 1 := ⟨f - 1, by omega⟩
    have hP : 0 < 2 ^ k := Nat.pos_pow_of_pos k (by omega)
    have hne : i ≠ sp := by
      intro he
      subst he
      have h0 : (i + 2 ^ k - i) % 2 ^ k = 0 := by
        rw [show i + 2 ^ k - i = 2 ^ k from by omega, Nat.mod_self]
      omega
    rw [travIdx, if_neg hne, step_mod k i m hk hm]
    have hi2 : (i + 1) % 2 ^ k ≤ m := by
      have := Nat.mod_lt (i + 1) hP
      omega
    have hd2 : (sp + 2 ^ k - (i + 1) % 2 ^ k) % 2 ^ k = n :=
      dist_step (2 ^ k) sp i n (by omega) (by omega) hd
    rw [ih f2 ((i + 1) % 2 ^ k) hi2 hd2 (by omega)]
    rw [List.range_succ_eq_map, List.map_cons, List.map_map]
    congr 1
    · rw [Nat.add_zero, Nat.mod_eq_of_lt (by omega)]
    · apply List.map_congr_left
      intro a _
      show ((i + 1) % 2 ^ k + a) % 2 ^ k = (i + (a + 1)) % 2 ^ k
      rw [Nat.mod_add_mod]
      congr 1
      omega

/-- size() equals the modular distance from start to stop with
respect to the power-of-two capacity. -/
theorem size_eq_dist (q : Queue) (k : Nat) (hk : k ≤ 32) (hm : q.mask + 1 = 2 ^ k)
    (hst : q.start ≤ q.mask) :
    size q = (q.stop + 2 ^ k - q.start) % 2 ^ k := by
  unfold size
  have hm2 : q.mask = 2 ^ k - 1 := by omega
  have hdvd : (2:Nat) ^ k ∣ 2 ^ 32 := pow_dvd_pow 2 hk
  rw [hm2, Nat.and_pow_two_sub_one_eq_mod, u32, U32, Nat.mod_mod_of_dvd _ hdvd]
  have hU : (2:Nat) ^ 32 = 2 ^ k * 2 ^ (32 - k) := by
    rw [← pow_add]
    congr 1
    omega
  obtain ⟨c, hc⟩ : ∃ c, 2 ^ (32 - k) = c + 1 :=
    ⟨2 ^ (32 - k) - 1, by have := Nat.one_le_two_pow (n := 32 - k); omega⟩
  have hmul : (2:Nat) ^ k * (c + 1) = 2 ^ k * c + 2 ^ k := by ring
  have h1 : q.stop + (2 ^ 32 - q.start) = (q.stop + 2 ^ k - q.start) + 2 ^ k * c := by
    rw [hU, hc, hmul]
    have h2 : q.start < 2 ^ k := by omega
    omega
  rw [h1, Nat.add_mul_mod_self_left]


/-- C10: on every state with power-of-two capacity 2 ^ k = mask + 1
and start, stop in [0, mask], the masked loops of for_each and
to_vector terminate - the traversal is unchanged by any fuel of at
least size(), i.e. the loop exits through its guard after exactly
size() = (stop - start) & mask iterations - and they visit exactly
the size() elements at start, (start + 1) & mask, ... in
front-to-back order with wraparound. -/
theorem c10_traversal_terminates_in_order (q : Queue) (k : Nat)
    (hm : q.mask + 1 = 2 ^ k) (hmu : q.mask < U32)
    (hst : q.start ≤ q.mask) (hsp : q.stop ≤ q.mask) :
    (toVectorS q).length = size q ∧
    toVectorS q = (List.range (size q)).map
      (fun j => readElem q ((q.start + j) % (q.mask + 1))) ∧
    forEachVisits q = toVectorS q ∧
    ∀ f, size q ≤ f →
      travIdx q.mask q.stop f q.start = travIdx q.mask q.stop (size q) q.start := by
  have hk : k ≤ 32 := by
    have h1 : (2:Nat) ^ k ≤ 2 ^ 32 := by
      rw [← hm]
      unfold U32 at hmu
      omega
    exact (Nat.pow_le_pow_iff_right (by omega)).mp h1
  have hsz := size_eq_dist q k hk hm hst
  have hP : 0 < 2 ^ k := Nat.pos_pow_of_pos k (by omega)
  have hszlt : size q < 2 ^ k := by
    rw [hsz]
    exact Nat.mod_lt _ hP
  have htr := travIdx_range k q.mask q.stop hk hm hsp (size q) (q.mask + 1) q.start hst
    hsz.symm (by omega)
  refine ⟨?_, ?_, rfl, ?_⟩
  · unfold toVectorS
    rw [htr, List.length_map, List.length_map, List.length_range]
  · unfold toVectorS
    rw [htr, List.map_map, hm]
    rfl
  · intro f hf
    rw [travIdx_range k q.mask q.stop hk hm hsp (size q) f q.start hst hsz.symm hf,
      travIdx_range k q.mask q.stop hk hm hsp (size q) (size q) q.start hst hsz.symm le_rfl]

/-- The copy-constructor loop writes exactly the byte range of the
slots it visits, copying each byte from the source at the same
address, and leaves every other byte of the destination alone. -/
theorem copyLoop_apply (src : Nat → Nat) (s : Nat) :
    ∀ (f i : Nat) (d : Nat → Nat), i + f < U32 →
      ∀ j, copyLoop src s f i d j =
        if i * s ≤ j ∧ j < (i + f) * s then src j else d j := by
  intro f
  induction f with
  | zero =>
    intro i d _ j
    rw [copyLoop, if_neg]
    intro hc
    rw [Nat.add_zero] at hc
    omega
  | succ f ih =>
    intro i d hi j
    rw [copyLoop]
    have h1 : u32 (i + 1) = i + 1 := u32_small (by omega)
    rw [h1, ih (i + 1) _ (by omega)]
    have e1 : (i + 1) * s = i * s + s := by ring
    have e2 : (i + 1 + f) * s = i * s + s + f * s := by ring
    have e3 : (i + (f + 1)) * s = i * s + s + f * s := by ring
    by_cases hc1 : (i + 1) * s ≤ j ∧ j < (i + 1 + f) * s
    · rw [if_pos hc1, if_pos (by omega)]
    · rw [if_neg hc1]
      unfold memcpyB
      by_cases hc2 : i * s ≤ j ∧ j < i * s + s
      · rw [if_pos hc2, show i * s + (j - i * s) = j from by omega, if_pos (by omega)]
      · rw [if_neg hc2, if_neg (by omega)]

/-- Two queues of the same element size whose byte memories agree on
the s bytes of slot i store the same element value there. -/
theorem readElem_congr (q2 q1 : Queue) (i : Nat) (hs : q2.s = q1.s)
    (h : ∀ b, b < q1.s → q2.data (i * q1.s + b) = q1.data (i * q1.s + b)) :
    readElem q2 i = readElem q1 i := by
  unfold readElem
  rw [hs]
  congr 1
  apply List.map_congr_left
  intro b hb
  exact h b (List.mem_range.mp hb)

/-- C5 amended: the copy constructor copies start_, stop_ and mask_
verbatim and reconstructs the live elements at their original
indices (not relinearized to index 0), so on every non-wrapped state
the copy has the same size() and the same to_vector() drain as the
original; independence of the copy from the original is immediate in
the model because the copy owns a fresh byte memory. -/
theorem c5_amended_copy_preserves (q : Queue) (k : Nat)
    (hm : q.mask + 1 = 2 ^ k) (hmu : q.mask < U32)
    (hws : q.start ≤ q.stop) (hsp : q.stop ≤ q.mask) :
    (copyS q).start = q.start ∧ (copyS q).stop = q.stop ∧
    (copyS q).mask = q.mask ∧ (copyS q).s = q.s ∧
    size (copyS q) = size q ∧
    toVectorS (copyS q) = toVectorS q := by
  have hk : k ≤ 32 := by
    have h1 : (2:Nat) ^ k ≤ 2 ^ 32 := by
      rw [← hm]
      unfold U32 at hmu
      omega
    exact (Nat.pow_le_pow_iff_right (by omega)).mp h1
  have hst : q.start ≤ q.mask := le_trans hws hsp
  have hP : 0 < 2 ^ k := Nat.pos_pow_of_pos k (by omega)
  have hsz := size_eq_dist q k hk hm hst
  have hszval : size q = q.stop - q.start := by
    rw [hsz, show q.stop + 2 ^ k - q.start = (q.stop - q.start) + 2 ^ k from by omega,
      Nat.add_mod_right]
    exact Nat.mod_eq_of_lt (by omega)
  have hfuel : u32 (q.stop + (U32 - q.start)) = q.stop - q.start := by
    rw [show q.stop + (U32 - q.start) = (q.stop - q.start) + U32 from by
        unfold U32 at hmu ⊢; omega,
      u32, Nat.add_mod_right]
    exact Nat.mod_eq_of_lt (by unfold U32 at hmu ⊢; omega)
  have hdata : ∀ j, (copyS q).data j =
      if q.start * q.s ≤ j ∧ j < q.stop * q.s then q.data j else 0 := by
    intro j
    show copyLoop q.data q.s (u32 (q.stop + (U32 - q.start))) q.start (fun _ => 0) j = _
    rw [hfuel, copyLoop_apply q.data q.s (q.stop - q.start) q.start (fun _ => 0)
      (by unfold U32 at hmu ⊢; omega) j,
      show q.start + (q.stop - q.start) = q.stop from by omega]
  have hread : ∀ i, q.start ≤ i → i < q.stop → readElem (copyS q) i = readElem q i := by
    intro i h1 h2
    apply readElem_congr
    · rfl
    · intro b hb
      show (copyS q).data (i * q.s + b) = q.data (i * q.s + b)
      rw [hdata]
      rw [if_pos]
      constructor
      · calc q.start * q.s ≤ i * q.s := Nat.mul_le_mul_right _ h1
          _ ≤ i * q.s + b := Nat.le_add_right _ _
      · calc i * q.s + b < i * q.s + q.s := by omega
          _ = (i + 1) * q.s := by ring
          _ ≤ q.stop * q.s := Nat.mul_le_mul_right _ (by omega)
  refine ⟨rfl, rfl, rfl, rfl, rfl, ?_⟩
  have htrv : travIdx (copyS q).mask (copyS q).stop ((copyS q).mask + 1) (copyS q).start =
      travIdx q.mask q.stop (q.mask + 1) q.start := rfl
  have htr := travIdx_range k q.mask q.stop hk hm hsp (size q) (q.mask + 1) q.start hst
    hsz.symm (by have := Nat.mod_lt (q.stop + 2 ^ k - q.start) hP; omega)
  unfold toVectorS
  rw [htrv, htr]
  rw [List.map_map, List.map_map]
  apply List.map_congr_left
  intro a ha
  have halt : a < size q := List.mem_range.mp ha
  show readElem (copyS q) ((q.start + a) % 2 ^ k) = readElem q ((q.start + a) % 2 ^ k)
  have hidx : (q.start + a) % 2 ^ k = q.start + a := by
    apply Nat.mod_eq_of_lt
    omega
  rw [hidx]
  exact hread (q.start + a) (by omega) (by omega)

/-- Witness for C6 at a concrete input: resizing the fresh mask-3
queue to 8 succeeds and yields the doubled mask. -/
theorem c6_resize_always_doubles_witness :
    ((resizeS (mkQueue 1 3) 8).2 = Except.ok ()) ∧
    (resizeS (mkQueue 1 3) 8).1.mask =
      u32 (u32 (u32 ((mkQueue 1 3).mask + 1) <<< 1) + (U32 - 1)) :=
  ⟨by decide, (c6_resize_always_doubles (mkQueue 1 3) 8 (by decide)).1⟩

/-- Witness for C7 at a concrete input: resizing the fresh mask-3
queue to 2 is rejected and leaves the queue unmodified. -/
theorem c7_invalid_resize_iff_witness :
    2 < (mkQueue 1 3).mask ∧
    resizeS (mkQueue 1 3) 2 = (mkQueue 1 3, Except.error Err.InvalidResize) :=
  ⟨by decide, (c7_invalid_resize_iff (mkQueue 1 3) 2).2 (by decide)⟩

/-- Witness for C8 at a concrete input: popping the freshly
constructed (hence empty) mask-3 queue fails without effect. -/
theorem c8_pop_empty_no_effect_witness :
    (mkQueue 1 3).start = (mkQueue 1 3).stop ∧ (mkQueue 1 3).start < U32 ∧
    popS (mkQueue 1 3) = (mkQueue 1 3, Except.error Err.EmptyQueue) ∧
    size (mkQueue 1 3) = 0 :=
  ⟨rfl, by decide, (c8_pop_empty_no_effect (mkQueue 1 3) rfl (by decide)).1,
    (c8_pop_empty_no_effect (mkQueue 1 3) rfl (by decide)).2.2⟩

/-- Witness for C9 at a concrete input: pop_back on the one-element
mask-3 queue leaves start_ where it was. -/
theorem c9_popBack_frame_witness :
    ((pushV (mkQueue 1 3) 5).mask + 1 = 2 ^ 2) ∧
    ((pushV (mkQueue 1 3) 5).stop ≠ (pushV (mkQueue 1 3) 5).start) ∧
    (popBackS (pushV (mkQueue 1 3) 5)).1.start = (pushV (mkQueue 1 3) 5).start :=
  ⟨by decide, by decide,
    (c9_popBack_frame (pushV (mkQueue 1 3) 5) 2 (by decide) (by decide) (by decide)).1⟩

/-- Witness for C10 at a concrete input: the traversal of the
one-element mask-3 queue has length size() = 1. -/
theorem c10_traversal_terminates_in_order_witness :
    ((pushV (mkQueue 1 3) 5).mask + 1 = 2 ^ 2) ∧
    (toVectorS (pushV (mkQueue 1 3) 5)).length = size (pushV (mkQueue 1 3) 5) :=
  ⟨by decide,
    (c10_traversal_terminates_in_order (pushV (mkQueue 1 3) 5) 2 (by decide) (by decide)
      (by decide) (by decide)).1⟩

/-- Witness for the amended C5 at a concrete input: copying the
two-element state c5q preserves its to_vector() drain. -/
theorem c5_amended_copy_preserves_witness :
    (c5q.mask + 1 = 2 ^ 2) ∧ c5q.start ≤ c5q.stop ∧
    toVectorS (copyS c5q) = toVectorS c5q :=
  ⟨by decide, by decide,
    (c5_amended_copy_preserves c5q 2 (by decide) (by decide) (by decide)
      (by decide)).2.2.2.2.2⟩

end CircQ
